import Mathlib

/-!
Shallow embedding of `numba/rewrites/ir_print.py`: the two rewrite rules
`RewritePrintCalls` and `DetectConstPrintArguments`, together with the
match/apply cycle the pass driver runs on them.

IR instructions in the source are Python objects whose identity is by
reference; within one block the instructions of `block.body` are pairwise
distinct objects, so a dictionary keyed by instruction identity is keyed,
extensionally, by position in the block.  We therefore key rewrite plans by
the instruction's index in the block body.
-/

/-- Source location (`ir.Loc`); only its identity matters to the rules. -/
structure Loc where
  line : Nat
deriving DecidableEq, Repr

/-- A variable reference (`ir.Var`), identified by its name. -/
abbrev Var := String

/-- Modelled from the spec: a constant value produced by the Constant
Inference Oracle (`interp.infer_constant`).  Python compares the resolved
callee against the built-in `print` by object identity (`callee is print`);
we model distinct Python objects by distinct constructors/payloads, with
`printBuiltin` the unique built-in print object and `func` any other
function object (possibly also named "print"). -/
inductive Const where
  | noneVal
  | intVal (n : Int)
  | strVal (s : String)
  | printBuiltin
  | func (name : String) (id : Nat)
  | obj (id : Nat)
deriving DecidableEq, Repr

/-- The `errors.ConstantInferenceError` raised by a failed oracle query. -/
structure ConstantInferenceError where
  msg : String
deriving DecidableEq, Repr

deriving instance DecidableEq for Except

/-- The Constant Inference Oracle `interp.infer_constant`: it either returns
a constant or raises `ConstantInferenceError`.  The rules assume it is
deterministic and side-effect-free, as the spec requires. -/
abbrev Oracle := Var → Except ConstantInferenceError Const

/-- An `ir.Expr` with `op == 'call'`: callee reference, positional argument
references, keyword arguments, optional vararg reference, location. -/
structure CallExpr where
  func : Var
  args : List Var
  kws : List (String × Var)
  vararg : Option Var
  loc : Loc
deriving DecidableEq, Repr

/-- The right-hand side of an `ir.Assign`: a call `ir.Expr`, an `ir.Expr`
with some other op, an `ir.Const`, a plain `ir.Var`, or any other value
class. -/
inductive RHSValue where
  | call (e : CallExpr)
  | exprOther (op : String) (id : Nat)
  | const (v : Const) (loc : Loc)
  | var (v : Var)
  | other (id : Nat)
deriving DecidableEq, Repr

/-- An `ir.Assign` instruction: target variable, right-hand side, location. -/
structure AssignData where
  target : Var
  value : RHSValue
  loc : Loc
deriving DecidableEq, Repr

/-- Modelled from the spec: an `ir.Print` node (the class itself is outside
`src/`): ordered argument references, optional vararg reference, source
location, and a mapping from argument index to resolved constant that is
initially empty. -/
structure PrintData where
  args : List Var
  vararg : Option Var
  loc : Loc
  consts : List (Nat × Const)
deriving DecidableEq, Repr

/-- An IR instruction: `ir.Assign`, `ir.Print`, or any other instruction
kind (branch, jump, setitem, ...), which both rules ignore. -/
inductive Inst where
  | assign (a : AssignData)
  | print (p : PrintData)
  | other (id : Nat)
deriving DecidableEq, Repr

/-- A basic block's instruction list (`block.body`). -/
abbrev Block := List Inst

/-- Dictionary lookup for a plan keyed by instruction position: the
embedding of `inst in self.prints` / `self.prints[inst]`. -/
def planLookup {α : Type} (k : Nat) : List (Nat × α) → Option α
  | [] => Option.none
  | (m, x) :: rest => if k = m then Option.some x else planLookup k rest

/-- The per-instruction trigger test of `RewritePrintCalls.match`: an
`ir.Assign` whose value is a call `ir.Expr` with no keyword arguments and
whose callee the oracle resolves to the built-in `print` object.  A raised
`ConstantInferenceError` is caught and the candidate skipped (`continue`). -/
def printCallCandidate (oracle : Oracle) (inst : Inst) : Option CallExpr :=
  match inst with
  | Inst.assign a =>
    match a.value with
    | RHSValue.call e =>
      if e.kws ≠ [] then Option.none
      else
        match oracle e.func with
        | Except.error _ => Option.none
        | Except.ok c =>
          if c = Const.printBuiltin then Option.some e else Option.none
    | _ => Option.none
  | _ => Option.none

/-- The scan of `RewritePrintCalls.match` over `block.find_insts(ir.Assign)`
(enumeration of the block body in order; non-Assign instructions never pass
the trigger test), accumulating the plan `self.prints` keyed by instruction
position, starting at position `n`. -/
def matchPrintPlanAux (oracle : Oracle) (n : Nat) : Block → List (Nat × CallExpr)
  | [] => []
  | inst :: rest =>
    match printCallCandidate oracle inst with
    | Option.some e => (n, e) :: matchPrintPlanAux oracle (n + 1) rest
    | Option.none => matchPrintPlanAux oracle (n + 1) rest

/-- The plan `self.prints` built by `RewritePrintCalls.match` on a block. -/
def matchPrintPlan (oracle : Oracle) (block : Block) : List (Nat × CallExpr) :=
  matchPrintPlanAux oracle 0 block

/-- The boolean result of `RewritePrintCalls.match`: `len(prints) > 0`. -/
def matchPrintCallsBool (oracle : Oracle) (block : Block) : Bool :=
  decide (0 < (matchPrintPlan oracle block).length)

/-- The loop body of `RewritePrintCalls.apply`: starting from an empty copy
of the block, for each instruction (at running position `n`), if it is in
the plan, append a new `ir.Print` node built from the recorded call
expression followed by an assignment of `ir.Const(None, loc=expr.loc)` to
the original target with the original instruction's location; otherwise
append the instruction itself.  (A matched instruction is always an
`ir.Assign`, whose `target` and `loc` the source reads directly.) -/
def applyPrintAux (prints : List (Nat × CallExpr)) (n : Nat) : Block → Block
  | [] => []
  | inst :: rest =>
    (match planLookup n prints, inst with
     | Option.some e, Inst.assign a =>
       [Inst.print ⟨e.args, e.vararg, e.loc, []⟩,
        Inst.assign ⟨a.target, RHSValue.const Const.noneVal e.loc, a.loc⟩]
     | _, _ => [inst]) ++ applyPrintAux prints (n + 1) rest

/-- `RewritePrintCalls.apply` run right after a `match` on the same block:
the plan is the one `match` stored on the rule instance. -/
def applyPrintCalls (oracle : Oracle) (block : Block) : Block :=
  applyPrintAux (matchPrintPlan oracle block) 0 block

/-- State-passing view of `RewritePrintCalls.apply`: first component is the
returned (freshly built) block, second component is the contents of the
input block after the call.  The source builds `new_block` by copying an
empty shell and appending, and never writes to `self.block` or to any
instruction in it, so the input block is returned unchanged. -/
def applyPrintCallsImp (oracle : Oracle) (block : Block) : Block × Block :=
  (applyPrintCalls oracle block, block)

/-- The inner loop of `DetectConstPrintArguments.match` over one print
node's arguments (`enumerate(inst.args)` starting at index `idx`): query
the oracle on each argument reference, skip the index if it raises
(`continue`), record `idx -> const` if it succeeds. -/
def detectConsts (oracle : Oracle) : Nat → List Var → List (Nat × Const)
  | _, [] => []
  | idx, v :: rest =>
    match oracle v with
    | Except.error _ => detectConsts oracle (idx + 1) rest
    | Except.ok c => (idx, c) :: detectConsts oracle (idx + 1) rest

/-- The per-instruction step of `DetectConstPrintArguments.match`: only
`ir.Print` nodes are scanned; a node whose `consts` mapping is non-empty is
skipped as already rewritten; `consts.setdefault(inst, {})[idx] = const`
creates the node's plan entry only when at least one argument resolves. -/
def detectCandidate (oracle : Oracle) (inst : Inst) : Option (List (Nat × Const)) :=
  match inst with
  | Inst.print p =>
    if p.consts ≠ [] then Option.none
    else
      match detectConsts oracle 0 p.args with
      | [] => Option.none
      | cs => Option.some cs
  | _ => Option.none

/-- The scan of `DetectConstPrintArguments.match` over
`block.find_insts(ir.Print)`, accumulating the plan `self.consts` keyed by
instruction position, starting at position `n`. -/
def matchDetectPlanAux (oracle : Oracle) (n : Nat) :
    Block → List (Nat × List (Nat × Const))
  | [] => []
  | inst :: rest =>
    match detectCandidate oracle inst with
    | Option.some cs => (n, cs) :: matchDetectPlanAux oracle (n + 1) rest
    | Option.none => matchDetectPlanAux oracle (n + 1) rest

/-- The plan `self.consts` built by `DetectConstPrintArguments.match`. -/
def matchDetectPlan (oracle : Oracle) (block : Block) :
    List (Nat × List (Nat × Const)) :=
  matchDetectPlanAux oracle 0 block

/-- The boolean result of `DetectConstPrintArguments.match`:
`len(consts) > 0`. -/
def matchDetectBool (oracle : Oracle) (block : Block) : Bool :=
  decide (0 < (matchDetectPlan oracle block).length)

/-- The loop of `DetectConstPrintArguments.apply`: for each instruction of
`self.block.body` (at running position `n`), if it is in the plan, overwrite
its `consts` field with the recorded mapping (`inst.consts = self.consts[inst]`);
all plan keys are `ir.Print` nodes.  The block structure is untouched. -/
def applyDetectAux (consts : List (Nat × List (Nat × Const))) (n : Nat) :
    Block → Block
  | [] => []
  | inst :: rest =>
    (match planLookup n consts, inst with
     | Option.some cs, Inst.print p => Inst.print ⟨p.args, p.vararg, p.loc, cs⟩
     | _, _ => inst) :: applyDetectAux consts (n + 1) rest

/-- State-passing view of `DetectConstPrintArguments.apply` run right after
a `match` on the same block: first component is the returned block, second
component is the contents of the input block after the call.  The source
mutates matched instructions of `self.block` in place and then
`return self.block`, so both components are the mutated input block. -/
def applyDetectImp (oracle : Oracle) (block : Block) : Block × Block :=
  let b := applyDetectAux (matchDetectPlan oracle block) 0 block
  (b, b)

/-- One match/apply cycle of `RewritePrintCalls` as the pass driver runs
it: `apply` is called exactly when `match` returned true. -/
def cyclePrintCalls (oracle : Oracle) (block : Block) : Block :=
  if matchPrintCallsBool oracle block then applyPrintCalls oracle block
  else block

/-- One match/apply cycle of `DetectConstPrintArguments` as the pass driver
runs it: `apply` is called exactly when `match` returned true. -/
def cycleDetect (oracle : Oracle) (block : Block) : Block :=
  if matchDetectBool oracle block then (applyDetectImp oracle block).1
  else block

/-- Modelled from the spec: the Pass Driver's per-rule fixpoint loop of
§4.3 (the driver lives in `numba/rewrites/__init__.py`, outside `src/`),
specialised to `RewritePrintCalls` and made executable with fuel: while
`match` succeeds, replace the block by `apply`'s result and retry with a
fresh rule instance. -/
def driverPrint (oracle : Oracle) : Nat → Block → Block
  | 0, b => b
  | Nat.succ n, b =>
    if matchPrintCallsBool oracle b then
      driverPrint oracle n (applyPrintCalls oracle b)
    else b

/-- Modelled from the spec: the Pass Driver's per-rule fixpoint loop of
§4.3, specialised to `DetectConstPrintArguments`. -/
def driverDetect (oracle : Oracle) : Nat → Block → Block
  | 0, b => b
  | Nat.succ n, b =>
    if matchDetectBool oracle b then
      driverDetect oracle n (applyDetectImp oracle b).1
    else b

/-- Specification-side single-instruction rewrite of `RewritePrintCalls`:
what one cycle does to each instruction, independent of positions. -/
def stepPrint (oracle : Oracle) (inst : Inst) : List Inst :=
  match printCallCandidate oracle inst, inst with
  | Option.some e, Inst.assign a =>
    [Inst.print ⟨e.args, e.vararg, e.loc, []⟩,
     Inst.assign ⟨a.target, RHSValue.const Const.noneVal e.loc, a.loc⟩]
  | _, _ => [inst]

/-- Specification-side single-instruction step of
`DetectConstPrintArguments`. -/
def stepDetect (oracle : Oracle) (inst : Inst) : Inst :=
  match detectCandidate oracle inst, inst with
  | Option.some cs, Inst.print p => Inst.print ⟨p.args, p.vararg, p.loc, cs⟩
  | _, _ => inst

/-- Pointwise extension of `stepPrint` to a block. -/
def rewriteAll (oracle : Oracle) : Block → Block
  | [] => []
  | inst :: rest => stepPrint oracle inst ++ rewriteAll oracle rest

/-- Pointwise extension of `stepDetect` to a block. -/
def annotateAll (oracle : Oracle) : Block → Block
  | [] => []
  | inst :: rest => stepDetect oracle inst :: annotateAll oracle rest

/-- A sample oracle used in concrete witnesses: `f` is the print builtin,
`one` and `two` are known integer constants, everything else is unknown. -/
def sampleOracle : Oracle := fun v =>
  if v = "f" then Except.ok Const.printBuiltin
  else if v = "one" then Except.ok (Const.intVal 1)
  else if v = "two" then Except.ok (Const.intVal 2)
  else Except.error ⟨"constant inference failed"⟩

/-- A sample oracle where `p2` resolves to a user-defined function object
that is also named "print" but is not the built-in print object. -/
def shadowOracle : Oracle := fun v =>
  if v = "p2" then Except.ok (Const.func "print" 0)
  else Except.error ⟨"constant inference failed"⟩

/-! ### Structural lemmas: `RewritePrintCalls` -/

lemma planLookup_matchPrintAux_lt (oracle : Oracle) :
    ∀ (body : Block) (n k : Nat), k < n →
      planLookup k (matchPrintPlanAux oracle n body) = Option.none := by
  intro body
  induction body with
  | nil => intro n k _; rfl
  | cons inst rest ih =>
    intro n k hk
    simp only [matchPrintPlanAux]
    cases hc : printCallCandidate oracle inst with
    | some e =>
      simp only [planLookup]
      rw [if_neg (by omega)]
      exact ih (n + 1) k (by omega)
    | none => exact ih (n + 1) k (by omega)

lemma applyPrintAux_cons_lt :
    ∀ (body : Block) (m : Nat) (e : CallExpr) (plan : List (Nat × CallExpr))
      (n : Nat), m < n →
      applyPrintAux ((m, e) :: plan) n body = applyPrintAux plan n body := by
  intro body
  induction body with
  | nil => intros; rfl
  | cons inst rest ih =>
    intro m e plan n hm
    simp only [applyPrintAux, planLookup]
    rw [if_neg (by omega), ih m e plan (n + 1) (by omega)]

lemma printCallCandidate_eq_some {oracle : Oracle} {inst : Inst} {e : CallExpr}
    (h : printCallCandidate oracle inst = Option.some e) :
    ∃ a, inst = Inst.assign a ∧ a.value = RHSValue.call e ∧ e.kws = [] ∧
      oracle e.func = Except.ok Const.printBuiltin := by
  cases inst with
  | print p => simp [printCallCandidate] at h
  | other i => simp [printCallCandidate] at h
  | assign a =>
    refine ⟨a, rfl, ?_⟩
    simp only [printCallCandidate] at h
    cases hv : a.value with
    | call e0 =>
      rw [hv] at h
      dsimp only at h
      by_cases hk : e0.kws = []
      · rw [if_neg (by simp [hk])] at h
        cases ho : oracle e0.func with
        | error err => rw [ho] at h; simp at h
        | ok c =>
          rw [ho] at h
          dsimp only at h
          by_cases hc : c = Const.printBuiltin
          · rw [if_pos hc] at h
            injection h with h
            subst h
            exact ⟨rfl, hk, by rw [ho, hc]⟩
          · rw [if_neg hc] at h; simp at h
      · rw [if_pos hk] at h; simp at h
    | exprOther op i => rw [hv] at h; simp at h
    | const v l => rw [hv] at h; simp at h
    | var v => rw [hv] at h; simp at h
    | other i => rw [hv] at h; simp at h

lemma stepPrint_of_none {oracle : Oracle} {inst : Inst}
    (h : printCallCandidate oracle inst = Option.none) :
    stepPrint oracle inst = [inst] := by
  cases inst <;> simp [stepPrint, h]

lemma applyPrintAux_matchAux (oracle : Oracle) :
    ∀ (body : Block) (n : Nat),
      applyPrintAux (matchPrintPlanAux oracle n body) n body
        = rewriteAll oracle body := by
  intro body
  induction body with
  | nil => intro n; rfl
  | cons inst rest ih =>
    intro n
    have hhead : planLookup n (matchPrintPlanAux oracle n (inst :: rest))
        = printCallCandidate oracle inst := by
      simp only [matchPrintPlanAux]
      cases hc : printCallCandidate oracle inst with
      | some e => simp [planLookup]
      | none => exact planLookup_matchPrintAux_lt oracle rest (n + 1) n (by omega)
    have htail : applyPrintAux (matchPrintPlanAux oracle n (inst :: rest)) (n + 1) rest
        = rewriteAll oracle rest := by
      simp only [matchPrintPlanAux]
      cases hc : printCallCandidate oracle inst with
      | some e =>
        rw [applyPrintAux_cons_lt rest n e _ (n + 1) (by omega)]
        exact ih (n + 1)
      | none => exact ih (n + 1)
    simp only [applyPrintAux, rewriteAll]
    rw [hhead, htail]
    congr 1

lemma applyPrintCalls_eq_rewriteAll (oracle : Oracle) (block : Block) :
    applyPrintCalls oracle block = rewriteAll oracle block :=
  applyPrintAux_matchAux oracle block 0

lemma matchPrintPlanAux_nil_iff (oracle : Oracle) :
    ∀ (body : Block) (n : Nat),
      matchPrintPlanAux oracle n body = [] ↔
        ∀ inst ∈ body, printCallCandidate oracle inst = Option.none := by
  intro body
  induction body with
  | nil => intro n; simp [matchPrintPlanAux]
  | cons inst rest ih =>
    intro n
    simp only [matchPrintPlanAux]
    cases hc : printCallCandidate oracle inst with
    | some e =>
      simp only [List.mem_cons]
      constructor
      · intro h; cases h
      · intro h
        have := h inst (Or.inl rfl)
        rw [hc] at this; cases this
    | none =>
      rw [ih (n + 1)]
      constructor
      · intro h i hi
        rcases List.mem_cons.mp hi with rfl | hi
        · exact hc
        · exact h i hi
      · intro h i hi
        exact h i (List.mem_cons_of_mem _ hi)

lemma matchPrintCallsBool_false_iff (oracle : Oracle) (block : Block) :
    matchPrintCallsBool oracle block = false ↔
      ∀ inst ∈ block, printCallCandidate oracle inst = Option.none := by
  rw [matchPrintCallsBool, decide_eq_false_iff_not, Nat.not_lt, Nat.le_zero,
    List.length_eq_zero, matchPrintPlan, matchPrintPlanAux_nil_iff]

lemma matchPrintCallsBool_true_iff (oracle : Oracle) (block : Block) :
    matchPrintCallsBool oracle block = true ↔
      ∃ inst ∈ block, printCallCandidate oracle inst ≠ Option.none := by
  constructor
  · intro ht
    by_contra hne
    push_neg at hne
    have hf : matchPrintCallsBool oracle block = false :=
      (matchPrintCallsBool_false_iff oracle block).mpr hne
    rw [ht] at hf
    cases hf
  · rintro ⟨inst, hmem, hne⟩
    cases hb : matchPrintCallsBool oracle block with
    | true => rfl
    | false =>
      exact absurd ((matchPrintCallsBool_false_iff oracle block).mp hb inst hmem) hne

lemma rewriteAll_no_candidate {oracle : Oracle} :
    ∀ {body : Block},
      (∀ inst ∈ body, printCallCandidate oracle inst = Option.none) →
      rewriteAll oracle body = body := by
  intro body
  induction body with
  | nil => intro _; rfl
  | cons inst rest ih =>
    intro h
    rw [rewriteAll, stepPrint_of_none (h inst (List.mem_cons_self _ _)),
      ih fun i hi => h i (List.mem_cons_of_mem _ hi)]
    rfl

lemma cyclePrintCalls_eq_rewriteAll (oracle : Oracle) (block : Block) :
    cyclePrintCalls oracle block = rewriteAll oracle block := by
  rw [cyclePrintCalls]
  cases hb : matchPrintCallsBool oracle block with
  | true => simp only [if_true]; exact applyPrintCalls_eq_rewriteAll oracle block
  | false =>
    simp only [Bool.false_eq_true, if_false]
    exact (rewriteAll_no_candidate ((matchPrintCallsBool_false_iff oracle block).mp hb)).symm

lemma rewriteAll_append (oracle : Oracle) :
    ∀ (pre post : Block),
      rewriteAll oracle (pre ++ post) = rewriteAll oracle pre ++ rewriteAll oracle post := by
  intro pre post
  induction pre with
  | nil => rfl
  | cons inst rest ih =>
    show stepPrint oracle inst ++ rewriteAll oracle (rest ++ post)
        = stepPrint oracle inst ++ rewriteAll oracle rest ++ rewriteAll oracle post
    rw [ih, List.append_assoc]

lemma mem_rewriteAll {oracle : Oracle} {i : Inst} :
    ∀ {body : Block},
      i ∈ rewriteAll oracle body ↔ ∃ inst ∈ body, i ∈ stepPrint oracle inst := by
  intro body
  induction body with
  | nil => simp [rewriteAll]
  | cons inst rest ih =>
    simp only [rewriteAll, List.mem_append, ih, List.mem_cons]
    constructor
    · rintro (h | ⟨j, hj, hji⟩)
      · exact ⟨inst, Or.inl rfl, h⟩
      · exact ⟨j, Or.inr hj, hji⟩
    · rintro ⟨j, rfl | hj, hji⟩
      · exact Or.inl hji
      · exact Or.inr ⟨j, hj, hji⟩

lemma stepPrint_no_candidate (oracle : Oracle) (inst : Inst) :
    ∀ i ∈ stepPrint oracle inst, printCallCandidate oracle i = Option.none := by
  intro i hi
  cases hc : printCallCandidate oracle inst with
  | some e =>
    obtain ⟨a, rfl, hv, hk, ho⟩ := printCallCandidate_eq_some hc
    simp only [stepPrint, hc] at hi
    rcases List.mem_cons.mp hi with rfl | hi
    · rfl
    · rcases List.mem_cons.mp hi with rfl | hi
      · rfl
      · cases hi
  | none =>
    rw [stepPrint_of_none hc] at hi
    rcases List.mem_cons.mp hi with rfl | hi
    · exact hc
    · cases hi

lemma matchPrintCallsBool_rewriteAll (oracle : Oracle) (block : Block) :
    matchPrintCallsBool oracle (rewriteAll oracle block) = false := by
  rw [matchPrintCallsBool_false_iff]
  intro i hi
  obtain ⟨inst, _, hstep⟩ := mem_rewriteAll.mp hi
  exact stepPrint_no_candidate oracle inst i hstep

/-! ### Structural lemmas: `DetectConstPrintArguments` -/

lemma planLookup_matchDetectAux_lt (oracle : Oracle) :
    ∀ (body : Block) (n k : Nat), k < n →
      planLookup k (matchDetectPlanAux oracle n body) = Option.none := by
  intro body
  induction body with
  | nil => intro n k _; rfl
  | cons inst rest ih =>
    intro n k hk
    simp only [matchDetectPlanAux]
    cases hc : detectCandidate oracle inst with
    | some cs =>
      simp only [planLookup]
      rw [if_neg (by omega)]
      exact ih (n + 1) k (by omega)
    | none => exact ih (n + 1) k (by omega)

lemma applyDetectAux_cons_lt :
    ∀ (body : Block) (m : Nat) (cs : List (Nat × Const))
      (plan : List (Nat × List (Nat × Const))) (n : Nat), m < n →
      applyDetectAux ((m, cs) :: plan) n body = applyDetectAux plan n body := by
  intro body
  induction body with
  | nil => intros; rfl
  | cons inst rest ih =>
    intro m cs plan n hm
    simp only [applyDetectAux, planLookup]
    rw [if_neg (by omega), ih m cs plan (n + 1) (by omega)]

lemma detectCandidate_eq_some {oracle : Oracle} {inst : Inst}
    {cs : List (Nat × Const)}
    (h : detectCandidate oracle inst = Option.some cs) :
    ∃ p, inst = Inst.print p ∧ p.consts = [] ∧
      detectConsts oracle 0 p.args = cs ∧ cs ≠ [] := by
  cases inst with
  | assign a => simp [detectCandidate] at h
  | other i => simp [detectCandidate] at h
  | print p =>
    refine ⟨p, rfl, ?_⟩
    simp only [detectCandidate] at h
    by_cases hc : p.consts = []
    · rw [if_neg (by simp [hc])] at h
      cases hd : detectConsts oracle 0 p.args with
      | nil => rw [hd] at h; simp at h
      | cons x rest =>
        rw [hd] at h
        dsimp only at h
        injection h with h
        subst h
        exact ⟨hc, rfl, by simp⟩
    · rw [if_pos hc] at h
      simp at h

lemma stepDetect_of_none {oracle : Oracle} {inst : Inst}
    (h : detectCandidate oracle inst = Option.none) :
    stepDetect oracle inst = inst := by
  cases inst <;> simp [stepDetect, h]

lemma applyDetectAux_matchAux (oracle : Oracle) :
    ∀ (body : Block) (n : Nat),
      applyDetectAux (matchDetectPlanAux oracle n body) n body
        = annotateAll oracle body := by
  intro body
  induction body with
  | nil => intro n; rfl
  | cons inst rest ih =>
    intro n
    have hhead : planLookup n (matchDetectPlanAux oracle n (inst :: rest))
        = detectCandidate oracle inst := by
      simp only [matchDetectPlanAux]
      cases hc : detectCandidate oracle inst with
      | some cs => simp [planLookup]
      | none => exact planLookup_matchDetectAux_lt oracle rest (n + 1) n (by omega)
    have htail : applyDetectAux (matchDetectPlanAux oracle n (inst :: rest)) (n + 1) rest
        = annotateAll oracle rest := by
      simp only [matchDetectPlanAux]
      cases hc : detectCandidate oracle inst with
      | some cs =>
        rw [applyDetectAux_cons_lt rest n cs _ (n + 1) (by omega)]
        exact ih (n + 1)
      | none => exact ih (n + 1)
    simp only [applyDetectAux, annotateAll]
    rw [hhead, htail]
    congr 1

lemma applyDetectImp_fst (oracle : Oracle) (block : Block) :
    (applyDetectImp oracle block).1 = annotateAll oracle block :=
  applyDetectAux_matchAux oracle block 0

lemma applyDetectImp_snd (oracle : Oracle) (block : Block) :
    (applyDetectImp oracle block).2 = annotateAll oracle block :=
  applyDetectAux_matchAux oracle block 0

lemma matchDetectPlanAux_nil_iff (oracle : Oracle) :
    ∀ (body : Block) (n : Nat),
      matchDetectPlanAux oracle n body = [] ↔
        ∀ inst ∈ body, detectCandidate oracle inst = Option.none := by
  intro body
  induction body with
  | nil => intro n; simp [matchDetectPlanAux]
  | cons inst rest ih =>
    intro n
    simp only [matchDetectPlanAux]
    cases hc : detectCandidate oracle inst with
    | some cs =>
      simp only [List.mem_cons]
      constructor
      · intro h; cases h
      · intro h
        have := h inst (Or.inl rfl)
        rw [hc] at this; cases this
    | none =>
      rw [ih (n + 1)]
      constructor
      · intro h i hi
        rcases List.mem_cons.mp hi with rfl | hi
        · exact hc
        · exact h i hi
      · intro h i hi
        exact h i (List.mem_cons_of_mem _ hi)

lemma matchDetectBool_false_iff (oracle : Oracle) (block : Block) :
    matchDetectBool oracle block = false ↔
      ∀ inst ∈ block, detectCandidate oracle inst = Option.none := by
  rw [matchDetectBool, decide_eq_false_iff_not, Nat.not_lt, Nat.le_zero,
    List.length_eq_zero, matchDetectPlan, matchDetectPlanAux_nil_iff]

lemma matchDetectBool_true_iff (oracle : Oracle) (block : Block) :
    matchDetectBool oracle block = true ↔
      ∃ inst ∈ block, detectCandidate oracle inst ≠ Option.none := by
  constructor
  · intro ht
    by_contra hne
    push_neg at hne
    have hf : matchDetectBool oracle block = false :=
      (matchDetectBool_false_iff oracle block).mpr hne
    rw [ht] at hf
    cases hf
  · rintro ⟨inst, hmem, hne⟩
    cases hb : matchDetectBool oracle block with
    | true => rfl
    | false =>
      exact absurd ((matchDetectBool_false_iff oracle block).mp hb inst hmem) hne

lemma annotateAll_no_candidate {oracle : Oracle} :
    ∀ {body : Block},
      (∀ inst ∈ body, detectCandidate oracle inst = Option.none) →
      annotateAll oracle body = body := by
  intro body
  induction body with
  | nil => intro _; rfl
  | cons inst rest ih =>
    intro h
    rw [annotateAll, stepDetect_of_none (h inst (List.mem_cons_self _ _)),
      ih fun i hi => h i (List.mem_cons_of_mem _ hi)]

lemma cycleDetect_eq_annotateAll (oracle : Oracle) (block : Block) :
    cycleDetect oracle block = annotateAll oracle block := by
  rw [cycleDetect]
  cases hb : matchDetectBool oracle block with
  | true => simp only [if_true]; exact applyDetectImp_fst oracle block
  | false =>
    simp only [Bool.false_eq_true, if_false]
    exact (annotateAll_no_candidate ((matchDetectBool_false_iff oracle block).mp hb)).symm

lemma annotateAll_append (oracle : Oracle) :
    ∀ (pre post : Block),
      annotateAll oracle (pre ++ post)
        = annotateAll oracle pre ++ annotateAll oracle post := by
  intro pre post
  induction pre with
  | nil => rfl
  | cons inst rest ih =>
    show stepDetect oracle inst :: annotateAll oracle (rest ++ post)
        = stepDetect oracle inst :: annotateAll oracle rest ++ annotateAll oracle post
    rw [ih]
    rfl

lemma mem_annotateAll {oracle : Oracle} {i : Inst} :
    ∀ {body : Block},
      i ∈ annotateAll oracle body ↔ ∃ inst ∈ body, i = stepDetect oracle inst := by
  intro body
  induction body with
  | nil => simp [annotateAll]
  | cons inst rest ih =>
    simp only [annotateAll, List.mem_cons, ih]
    constructor
    · rintro (rfl | ⟨j, hj, rfl⟩)
      · exact ⟨inst, Or.inl rfl, rfl⟩
      · exact ⟨j, Or.inr hj, rfl⟩
    · rintro ⟨j, rfl | hj, rfl⟩
      · exact Or.inl rfl
      · exact Or.inr ⟨j, hj, rfl⟩

lemma stepDetect_no_candidate (oracle : Oracle) (inst : Inst) :
    detectCandidate oracle (stepDetect oracle inst) = Option.none := by
  cases hc : detectCandidate oracle inst with
  | some cs =>
    obtain ⟨p, rfl, hpc, hdc, hne⟩ := detectCandidate_eq_some hc
    have hstep : stepDetect oracle (Inst.print p)
        = Inst.print ⟨p.args, p.vararg, p.loc, cs⟩ := by
      simp [stepDetect, hc]
    rw [hstep]
    simp [detectCandidate, hne]
  | none =>
    rw [stepDetect_of_none hc]
    exact hc

lemma matchDetectBool_annotateAll (oracle : Oracle) (block : Block) :
    matchDetectBool oracle (annotateAll oracle block) = false := by
  rw [matchDetectBool_false_iff]
  intro i hi
  obtain ⟨inst, _, rfl⟩ := mem_annotateAll.mp hi
  exact stepDetect_no_candidate oracle inst

lemma stepDetect_idem (oracle : Oracle) (inst : Inst) :
    stepDetect oracle (stepDetect oracle inst) = stepDetect oracle inst :=
  stepDetect_of_none (stepDetect_no_candidate oracle inst)

lemma annotateAll_idem (oracle : Oracle) :
    ∀ (body : Block),
      annotateAll oracle (annotateAll oracle body) = annotateAll oracle body := by
  intro body
  induction body with
  | nil => rfl
  | cons inst rest ih =>
    show stepDetect oracle (stepDetect oracle inst)
        :: annotateAll oracle (annotateAll oracle rest)
      = stepDetect oracle inst :: annotateAll oracle rest
    rw [stepDetect_idem, ih]

/-! ### The constant mapping recorded for one print node -/

lemma mem_detectConsts (oracle : Oracle) :
    ∀ (args : List Var) (k j : Nat) (c : Const),
      (j, c) ∈ detectConsts oracle k args ↔
        ∃ i v, j = k + i ∧ args[i]? = Option.some v ∧ oracle v = Except.ok c := by
  intro args
  induction args with
  | nil => intro k j c; simp [detectConsts]
  | cons v rest ih =>
    intro k j c
    simp only [detectConsts]
    cases ho : oracle v with
    | error err =>
      dsimp only
      rw [ih]
      constructor
      · rintro ⟨i, w, rfl, hget, hok⟩
        exact ⟨i + 1, w, by omega, by simpa using hget, hok⟩
      · rintro ⟨i, w, hj, hget, hok⟩
        cases i with
        | zero =>
          simp only [List.getElem?_cons_zero, Option.some.injEq] at hget
          subst hget
          rw [ho] at hok
          cases hok
        | succ i0 =>
          exact ⟨i0, w, by omega, by simpa using hget, hok⟩
    | ok c0 =>
      dsimp only
      rw [List.mem_cons, ih]
      constructor
      · rintro (hp | ⟨i, w, hj, hget, hok⟩)
        · injection hp with h1 h2
          subst h1
          subst h2
          exact ⟨0, v, by omega, by simp, by rw [ho]⟩
        · exact ⟨i + 1, w, by omega, by simpa using hget, hok⟩
      · rintro ⟨i, w, hj, hget, hok⟩
        cases i with
        | zero =>
          simp only [List.getElem?_cons_zero, Option.some.injEq] at hget
          subst hget
          rw [ho] at hok
          injection hok with hok
          subst hok
          left
          have : j = k := by omega
          rw [this]
        | succ i0 =>
          right
          exact ⟨i0, w, by omega, by simpa using hget, hok⟩

/-! ### Driver fixpoint lemmas -/

lemma driverPrint_fix (oracle : Oracle) (n : Nat) (b : Block) :
    driverPrint oracle (n + 2) b = cyclePrintCalls oracle b := by
  show (if matchPrintCallsBool oracle b then
          driverPrint oracle (n + 1) (applyPrintCalls oracle b)
        else b) = cyclePrintCalls oracle b
  rw [cyclePrintCalls]
  cases hb : matchPrintCallsBool oracle b with
  | false => simp
  | true =>
    simp only [if_true]
    show (if matchPrintCallsBool oracle (applyPrintCalls oracle b) then
            driverPrint oracle n (applyPrintCalls oracle (applyPrintCalls oracle b))
          else applyPrintCalls oracle b) = applyPrintCalls oracle b
    rw [applyPrintCalls_eq_rewriteAll oracle b, matchPrintCallsBool_rewriteAll]
    simp

lemma driverDetect_fix (oracle : Oracle) (n : Nat) (b : Block) :
    driverDetect oracle (n + 2) b = cycleDetect oracle b := by
  show (if matchDetectBool oracle b then
          driverDetect oracle (n + 1) (applyDetectImp oracle b).1
        else b) = cycleDetect oracle b
  rw [cycleDetect]
  cases hb : matchDetectBool oracle b with
  | false => simp
  | true =>
    simp only [if_true]
    show (if matchDetectBool oracle (applyDetectImp oracle b).1 then
            driverDetect oracle n (applyDetectImp oracle (applyDetectImp oracle b).1).1
          else (applyDetectImp oracle b).1) = (applyDetectImp oracle b).1
    rw [applyDetectImp_fst oracle b, matchDetectBool_annotateAll]
    simp

/-! ### Claim theorems -/

/-- C1: every Assign instruction matched by `RewritePrintCalls` (right-hand
side a call expression with no keyword arguments whose callee resolves to
the print builtin) is replaced in the output block by exactly two
instructions in order: first a Print node carrying the call's positional
arguments, vararg reference and the call expression's source location, then
an Assign of the original target to a "no value" (`None`) constant carrying
the original instruction's source location. -/
theorem printCall_rewritten_to_print_then_assign (oracle : Oracle)
    (pre post : Block) (a : AssignData) (e : CallExpr)
    (hv : a.value = RHSValue.call e) (hkw : e.kws = [])
    (hc : oracle e.func = Except.ok Const.printBuiltin) :
    cyclePrintCalls oracle (pre ++ Inst.assign a :: post)
      = rewriteAll oracle pre
        ++ Inst.print ⟨e.args, e.vararg, e.loc, []⟩
        :: Inst.assign ⟨a.target, RHSValue.const Const.noneVal e.loc, a.loc⟩
        :: rewriteAll oracle post := by
  have hcand : printCallCandidate oracle (Inst.assign a) = Option.some e := by
    simp [printCallCandidate, hv, hkw, hc]
  have hstep : stepPrint oracle (Inst.assign a)
      = [Inst.print ⟨e.args, e.vararg, e.loc, []⟩,
         Inst.assign ⟨a.target, RHSValue.const Const.noneVal e.loc, a.loc⟩] := by
    simp [stepPrint, hcand]
  rw [cyclePrintCalls_eq_rewriteAll, rewriteAll_append]
  show rewriteAll oracle pre
      ++ (stepPrint oracle (Inst.assign a) ++ rewriteAll oracle post) = _
  rw [hstep]
  rfl

/-- Witness for C1 at `r = print(one, two)`. -/
theorem printCall_rewritten_to_print_then_assign_witness :
    cyclePrintCalls sampleOracle
        [Inst.assign ⟨"r", RHSValue.call ⟨"f", ["one", "two"], [], Option.none, ⟨3⟩⟩, ⟨4⟩⟩]
      = [Inst.print ⟨["one", "two"], Option.none, ⟨3⟩, []⟩,
         Inst.assign ⟨"r", RHSValue.const Const.noneVal ⟨3⟩, ⟨4⟩⟩] := by
  have h := printCall_rewritten_to_print_then_assign sampleOracle [] []
    ⟨"r", RHSValue.call ⟨"f", ["one", "two"], [], Option.none, ⟨3⟩⟩, ⟨4⟩⟩
    ⟨"f", ["one", "two"], [], Option.none, ⟨3⟩⟩ rfl rfl (by decide)
  exact h.trans (by decide)

/-- C2 counterexample: `DetectConstPrintArguments.apply` mutates its input
block.  On a block holding one Print node with a resolvable constant
argument, the contents of the input block after `apply` differ from the
contents before the call (the node's `consts` field was overwritten in
place), refuting the claim that every rule's `apply` returns a new block
and never mutates an instruction of the input block. -/
theorem detectApply_mutates_input :
    (applyDetectImp sampleOracle [Inst.print ⟨["one"], Option.none, ⟨0⟩, []⟩]).2
      ≠ [Inst.print ⟨["one"], Option.none, ⟨0⟩, []⟩] := by
  decide

/-- C2 (amended): `RewritePrintCalls.apply` builds and returns a new block
and leaves its input block unchanged, while `DetectConstPrintArguments.apply`
mutates the `consts` field of matched Print instructions of its input block
in place and returns that same block, whose contents are the pointwise
constant annotation of the input. -/
theorem apply_block_effects (oracle : Oracle) (block : Block) :
    (applyPrintCallsImp oracle block).2 = block
    ∧ (applyPrintCallsImp oracle block).1 = rewriteAll oracle block
    ∧ (applyDetectImp oracle block).1 = (applyDetectImp oracle block).2
    ∧ (applyDetectImp oracle block).2 = annotateAll oracle block :=
  ⟨rfl, applyPrintCalls_eq_rewriteAll oracle block, rfl,
    applyDetectImp_snd oracle block⟩

/-- C3: an Assign whose right-hand side is a call with at least one keyword
argument is never matched by `RewritePrintCalls` and is never converted
into a Print node, whatever the callee resolves to: the cycle carries it to
the output unchanged and in place. -/
theorem kwargs_call_never_matched (oracle : Oracle) (pre post : Block)
    (a : AssignData) (e : CallExpr)
    (hv : a.value = RHSValue.call e) (hkw : e.kws ≠ []) :
    printCallCandidate oracle (Inst.assign a) = Option.none
    ∧ cyclePrintCalls oracle (pre ++ Inst.assign a :: post)
        = rewriteAll oracle pre ++ Inst.assign a :: rewriteAll oracle post := by
  have hcand : printCallCandidate oracle (Inst.assign a) = Option.none := by
    simp [printCallCandidate, hv, hkw]
  refine ⟨hcand, ?_⟩
  rw [cyclePrintCalls_eq_rewriteAll, rewriteAll_append]
  show rewriteAll oracle pre
      ++ (stepPrint oracle (Inst.assign a) ++ rewriteAll oracle post) = _
  rw [stepPrint_of_none hcand]
  rfl

/-- Witness for C3 at `r = print(one, fmt=y)`, with a callee that does
resolve to the print builtin. -/
theorem kwargs_call_never_matched_witness :
    printCallCandidate sampleOracle
        (Inst.assign ⟨"r", RHSValue.call ⟨"f", ["one"], [("fmt", "y")], Option.none, ⟨1⟩⟩, ⟨2⟩⟩)
      = Option.none
    ∧ cyclePrintCalls sampleOracle
        [Inst.assign ⟨"r", RHSValue.call ⟨"f", ["one"], [("fmt", "y")], Option.none, ⟨1⟩⟩, ⟨2⟩⟩]
      = [Inst.assign ⟨"r", RHSValue.call ⟨"f", ["one"], [("fmt", "y")], Option.none, ⟨1⟩⟩, ⟨2⟩⟩] := by
  have h := kwargs_call_never_matched sampleOracle [] []
    ⟨"r", RHSValue.call ⟨"f", ["one"], [("fmt", "y")], Option.none, ⟨1⟩⟩, ⟨2⟩⟩
    ⟨"f", ["one"], [("fmt", "y")], Option.none, ⟨1⟩⟩ rfl (by decide)
  exact ⟨h.1, h.2.trans (by decide)⟩

/-- C4: running the `DetectConstPrintArguments` match/apply cycle twice on
a block (with the same deterministic oracle) produces the same block, and
in particular the same constant mapping on every Print node, as running it
once: the second run's trigger guard skips every node whose mapping was
filled in, and nodes left unannotated resolve to nothing again. -/
theorem constAnnotation_idempotent (oracle : Oracle) (block : Block) :
    cycleDetect oracle (cycleDetect oracle block) = cycleDetect oracle block := by
  rw [cycleDetect_eq_annotateAll, cycleDetect_eq_annotateAll, annotateAll_idem]

/-- C5: an oracle failure (`ConstantInferenceError`) on a candidate's
callee or argument is converted into skipping that candidate while the scan
continues: a print-shaped Assign with an unresolvable callee contributes no
plan entry and its presence does not change the match outcome, and an
unresolvable Print argument is absent from the recorded constants while
every other resolvable argument is still recorded.  `match` itself stays a
total function: the failure never escapes it. -/
theorem oracle_failure_skips_candidate (oracle : Oracle)
    (err : ConstantInferenceError) (pre post : Block)
    (a : AssignData) (e : CallExpr) (p : PrintData) (idx : Nat) (v : Var)
    (hv : a.value = RHSValue.call e) (hkw : e.kws = [])
    (hfail : oracle e.func = Except.error err)
    (hidx : p.args[idx]? = Option.some v)
    (hfailv : oracle v = Except.error err) :
    printCallCandidate oracle (Inst.assign a) = Option.none
    ∧ matchPrintCallsBool oracle (pre ++ Inst.assign a :: post)
        = matchPrintCallsBool oracle (pre ++ post)
    ∧ (∀ c : Const, (idx, c) ∉ detectConsts oracle 0 p.args)
    ∧ (∀ (j : Nat) (w : Var) (c : Const), j ≠ idx →
        p.args[j]? = Option.some w → oracle w = Except.ok c →
        (j, c) ∈ detectConsts oracle 0 p.args) := by
  have hcand : printCallCandidate oracle (Inst.assign a) = Option.none := by
    simp [printCallCandidate, hv, hkw, hfail]
  refine ⟨hcand, ?_, ?_, ?_⟩
  · cases hb : matchPrintCallsBool oracle (pre ++ post) with
    | true =>
      obtain ⟨i, hi, hne⟩ := (matchPrintCallsBool_true_iff oracle (pre ++ post)).mp hb
      refine (matchPrintCallsBool_true_iff _ _).mpr ⟨i, ?_, hne⟩
      rcases List.mem_append.mp hi with h | h
      · exact List.mem_append.mpr (Or.inl h)
      · exact List.mem_append.mpr (Or.inr (List.mem_cons_of_mem _ h))
    | false =>
      have hall := (matchPrintCallsBool_false_iff oracle (pre ++ post)).mp hb
      refine (matchPrintCallsBool_false_iff _ _).mpr ?_
      intro i hi
      rcases List.mem_append.mp hi with h | h
      · exact hall i (List.mem_append.mpr (Or.inl h))
      · rcases List.mem_cons.mp h with rfl | h
        · exact hcand
        · exact hall i (List.mem_append.mpr (Or.inr h))
  · intro c hmem
    obtain ⟨i, w, hji, hget, hok⟩ := (mem_detectConsts oracle p.args 0 idx c).mp hmem
    have hieq : i = idx := by omega
    subst hieq
    rw [hidx] at hget
    injection hget with hget
    subst hget
    rw [hfailv] at hok
    cases hok
  · intro j w c _ hget hok
    exact (mem_detectConsts oracle p.args 0 j c).mpr ⟨j, w, by omega, hget, hok⟩

/-- Witness for C5: callee `g` and argument `y` both fail constant
inference; `one` still gets recorded. -/
theorem oracle_failure_skips_candidate_witness :
    printCallCandidate sampleOracle
        (Inst.assign ⟨"r", RHSValue.call ⟨"g", [], [], Option.none, ⟨1⟩⟩, ⟨1⟩⟩)
      = Option.none
    ∧ matchPrintCallsBool sampleOracle
        [Inst.other 7, Inst.assign ⟨"r", RHSValue.call ⟨"g", [], [], Option.none, ⟨1⟩⟩, ⟨1⟩⟩]
      = matchPrintCallsBool sampleOracle [Inst.other 7]
    ∧ (∀ c : Const, (1, c) ∉ detectConsts sampleOracle 0 ["one", "y"])
    ∧ (∀ (j : Nat) (w : Var) (c : Const), j ≠ 1 →
        ["one", "y"][j]? = Option.some w → sampleOracle w = Except.ok c →
        (j, c) ∈ detectConsts sampleOracle 0 ["one", "y"]) :=
  oracle_failure_skips_candidate sampleOracle ⟨"constant inference failed"⟩
    [Inst.other 7] [] ⟨"r", RHSValue.call ⟨"g", [], [], Option.none, ⟨1⟩⟩, ⟨1⟩⟩
    ⟨"g", [], [], Option.none, ⟨1⟩⟩ ⟨["one", "y"], Option.none, ⟨2⟩, []⟩ 1 "y"
    rfl rfl (by decide) (by decide) (by decide)

/-- C6: for a Print node with an empty mapping, the constant mapping
written by the `DetectConstPrintArguments` cycle contains exactly the
argument indices whose references the oracle resolves, each bound to its
resolved constant, and omits every index whose resolution fails. -/
theorem detect_records_exactly_resolved (oracle : Oracle) (pre post : Block)
    (p : PrintData) (hempty : p.consts = []) :
    cycleDetect oracle (pre ++ Inst.print p :: post)
      = annotateAll oracle pre
        ++ Inst.print ⟨p.args, p.vararg, p.loc, detectConsts oracle 0 p.args⟩
        :: annotateAll oracle post
    ∧ ∀ (idx : Nat) (c : Const), ((idx, c) ∈ detectConsts oracle 0 p.args ↔
        ∃ v, p.args[idx]? = Option.some v ∧ oracle v = Except.ok c) := by
  constructor
  · rw [cycleDetect_eq_annotateAll, annotateAll_append]
    show annotateAll oracle pre
        ++ (stepDetect oracle (Inst.print p) :: annotateAll oracle post) = _
    have hstep : stepDetect oracle (Inst.print p)
        = Inst.print ⟨p.args, p.vararg, p.loc, detectConsts oracle 0 p.args⟩ := by
      cases hd : detectConsts oracle 0 p.args with
      | nil =>
        have hcand : detectCandidate oracle (Inst.print p) = Option.none := by
          simp [detectCandidate, hempty, hd]
        rw [stepDetect_of_none hcand, ← hempty]
      | cons x rest =>
        have hcand : detectCandidate oracle (Inst.print p)
            = Option.some (x :: rest) := by
          simp [detectCandidate, hempty, hd]
        simp [stepDetect, hcand]
    rw [hstep]
  · intro idx c
    rw [mem_detectConsts oracle p.args 0 idx c]
    constructor
    · rintro ⟨i, v, hji, hget, hok⟩
      have hieq : i = idx := by omega
      subst hieq
      exact ⟨v, hget, hok⟩
    · rintro ⟨v, hget, hok⟩
      exact ⟨idx, v, by omega, hget, hok⟩

/-- Witness for C6 at `print(one, y)` with `y` not statically known: the
mapping is exactly index 0 bound to the constant 1. -/
theorem detect_records_exactly_resolved_witness :
    cycleDetect sampleOracle [Inst.print ⟨["one", "y"], Option.none, ⟨5⟩, []⟩]
      = [Inst.print ⟨["one", "y"], Option.none, ⟨5⟩, [(0, Const.intVal 1)]⟩]
    ∧ detectConsts sampleOracle 0 ["one", "y"] = [(0, Const.intVal 1)] := by
  have h := (detect_records_exactly_resolved sampleOracle [] []
    ⟨["one", "y"], Option.none, ⟨5⟩, []⟩ rfl).1
  exact ⟨h.trans (by decide), by decide⟩

/-- C7: on a block where no instruction satisfies a rule's trigger pattern,
that rule's `match` returns false and its cycle leaves the block identical
in order and content; and `RewritePrintCalls.apply` is the pointwise
rewrite of the block, carrying every non-matching instruction over
unchanged ([inst] for itself), in original relative order. -/
theorem no_match_and_order_preservation (oracle : Oracle) (block : Block) :
    ((∀ inst ∈ block, printCallCandidate oracle inst = Option.none) →
      matchPrintCallsBool oracle block = false
      ∧ cyclePrintCalls oracle block = block)
    ∧ ((∀ inst ∈ block, detectCandidate oracle inst = Option.none) →
      matchDetectBool oracle block = false
      ∧ cycleDetect oracle block = block)
    ∧ cyclePrintCalls oracle block = rewriteAll oracle block
    ∧ (∀ inst : Inst, printCallCandidate oracle inst = Option.none →
        stepPrint oracle inst = [inst]) := by
  refine ⟨?_, ?_, cyclePrintCalls_eq_rewriteAll oracle block,
    fun inst h => stepPrint_of_none h⟩
  · intro h
    exact ⟨(matchPrintCallsBool_false_iff oracle block).mpr h,
      (cyclePrintCalls_eq_rewriteAll oracle block).trans (rewriteAll_no_candidate h)⟩
  · intro h
    exact ⟨(matchDetectBool_false_iff oracle block).mpr h,
      (cycleDetect_eq_annotateAll oracle block).trans (annotateAll_no_candidate h)⟩

/-- Witness for C7 on a block with a lone non-matching instruction. -/
theorem no_match_and_order_preservation_witness :
    (matchPrintCallsBool sampleOracle [Inst.other 3] = false
      ∧ cyclePrintCalls sampleOracle [Inst.other 3] = [Inst.other 3])
    ∧ (matchDetectBool sampleOracle [Inst.other 3] = false
      ∧ cycleDetect sampleOracle [Inst.other 3] = [Inst.other 3]) := by
  have h := no_match_and_order_preservation sampleOracle [Inst.other 3]
  exact ⟨h.1 (by decide), h.2.1 (by decide)⟩

/-- C8: neither rule re-matches its own output: after one match/apply
cycle of `RewritePrintCalls` or `DetectConstPrintArguments` (with a
deterministic, side-effect-free oracle), `match` on the returned block is
false, and hence the driver's per-rule fixpoint loop stabilises after one
cycle: any fuel of at least two yields exactly the one-cycle result. -/
theorem rules_never_rematch_output (oracle : Oracle) (block : Block) (n : Nat) :
    matchPrintCallsBool oracle (cyclePrintCalls oracle block) = false
    ∧ matchDetectBool oracle (cycleDetect oracle block) = false
    ∧ driverPrint oracle (n + 2) block = cyclePrintCalls oracle block
    ∧ driverDetect oracle (n + 2) block = cycleDetect oracle block := by
  refine ⟨?_, ?_, driverPrint_fix oracle n block, driverDetect_fix oracle n block⟩
  · rw [cyclePrintCalls_eq_rewriteAll]
    exact matchPrintCallsBool_rewriteAll oracle block
  · rw [cycleDetect_eq_annotateAll]
    exact matchDetectBool_annotateAll oracle block

/-- C9: each rule's `match` returns true exactly when at least one
candidate with a successfully resolved plan entry exists; Print nodes with
empty mappings but no statically resolvable arguments, and print-shaped
calls whose callee cannot be resolved, yield a match result of false. -/
theorem match_true_iff_candidate_found (oracle : Oracle) (block : Block) :
    (matchPrintCallsBool oracle block = true ↔
      ∃ inst ∈ block, printCallCandidate oracle inst ≠ Option.none)
    ∧ (matchDetectBool oracle block = true ↔
      ∃ inst ∈ block, detectCandidate oracle inst ≠ Option.none)
    ∧ ((∀ p : PrintData, Inst.print p ∈ block → p.consts = [] →
        detectConsts oracle 0 p.args = []) →
      matchDetectBool oracle block = false)
    ∧ ((∀ (a : AssignData) (e : CallExpr), Inst.assign a ∈ block →
        a.value = RHSValue.call e →
        ∃ err, oracle e.func = Except.error err) →
      matchPrintCallsBool oracle block = false) := by
  refine ⟨matchPrintCallsBool_true_iff oracle block,
    matchDetectBool_true_iff oracle block, ?_, ?_⟩
  · intro h
    refine (matchDetectBool_false_iff oracle block).mpr ?_
    intro inst hmem
    cases hc : detectCandidate oracle inst with
    | none => rfl
    | some cs =>
      obtain ⟨p, rfl, hpc, hdc, hne⟩ := detectCandidate_eq_some hc
      have h0 := h p hmem hpc
      rw [hdc] at h0
      exact absurd h0 hne
  · intro h
    refine (matchPrintCallsBool_false_iff oracle block).mpr ?_
    intro inst hmem
    cases hc : printCallCandidate oracle inst with
    | none => rfl
    | some e =>
      obtain ⟨a, rfl, hv, hkw, ho⟩ := printCallCandidate_eq_some hc
      obtain ⟨err, herr⟩ := h a e hmem hv
      rw [ho] at herr
      cases herr

/-- Witness for C9: a Print node with no resolvable argument plus an
Assign calling an unresolvable callee make both rules report no match. -/
theorem match_true_iff_candidate_found_witness :
    matchDetectBool sampleOracle
        [Inst.print ⟨["y"], Option.none, ⟨1⟩, []⟩,
         Inst.assign ⟨"r", RHSValue.call ⟨"g", [], [], Option.none, ⟨1⟩⟩, ⟨2⟩⟩] = false
    ∧ matchPrintCallsBool sampleOracle
        [Inst.print ⟨["y"], Option.none, ⟨1⟩, []⟩,
         Inst.assign ⟨"r", RHSValue.call ⟨"g", [], [], Option.none, ⟨1⟩⟩, ⟨2⟩⟩] = false := by
  have h := match_true_iff_candidate_found sampleOracle
    [Inst.print ⟨["y"], Option.none, ⟨1⟩, []⟩,
     Inst.assign ⟨"r", RHSValue.call ⟨"g", [], [], Option.none, ⟨1⟩⟩, ⟨2⟩⟩]
  refine ⟨h.2.2.1 ?_, h.2.2.2 ?_⟩
  · intro p hp _
    simp only [List.mem_cons, List.not_mem_nil, or_false] at hp
    rcases hp with hp | hp
    · injection hp with hp
      subst hp
      decide
    · simp at hp
  · intro a e ha hv
    simp only [List.mem_cons, List.not_mem_nil, or_false] at ha
    rcases ha with ha | ha
    · simp at ha
    · injection ha with ha
      subst ha
      dsimp only at hv
      injection hv with hv
      subst hv
      exact ⟨⟨"constant inference failed"⟩, by decide⟩

/-- C10: the callee check is identity with the print builtin: whenever the
oracle resolves the callee of a keyword-free call to any constant other
than the built-in print object — including a different function merely
named "print" — the instruction is not matched and the cycle leaves it
unchanged in place. -/
theorem non_builtin_callee_not_matched (oracle : Oracle) (a : AssignData)
    (e : CallExpr) (c : Const)
    (hv : a.value = RHSValue.call e) (hres : oracle e.func = Except.ok c)
    (hne : c ≠ Const.printBuiltin) :
    printCallCandidate oracle (Inst.assign a) = Option.none
    ∧ stepPrint oracle (Inst.assign a) = [Inst.assign a]
    ∧ ∀ pre post : Block, cyclePrintCalls oracle (pre ++ Inst.assign a :: post)
        = rewriteAll oracle pre ++ Inst.assign a :: rewriteAll oracle post := by
  have hcand : printCallCandidate oracle (Inst.assign a) = Option.none := by
    simp only [printCallCandidate, hv]
    by_cases hk : e.kws = []
    · rw [if_neg (by simp [hk]), hres]
      dsimp only
      rw [if_neg hne]
    · rw [if_pos hk]
  refine ⟨hcand, stepPrint_of_none hcand, ?_⟩
  intro pre post
  rw [cyclePrintCalls_eq_rewriteAll, rewriteAll_append]
  show rewriteAll oracle pre
      ++ (stepPrint oracle (Inst.assign a) ++ rewriteAll oracle post) = _
  rw [stepPrint_of_none hcand]
  rfl

/-- Witness for C10: a call to a user function named "print" that is not
the builtin is left untouched. -/
theorem non_builtin_callee_not_matched_witness :
    printCallCandidate shadowOracle
        (Inst.assign ⟨"r", RHSValue.call ⟨"p2", ["x"], [], Option.none, ⟨1⟩⟩, ⟨2⟩⟩)
      = Option.none
    ∧ stepPrint shadowOracle
        (Inst.assign ⟨"r", RHSValue.call ⟨"p2", ["x"], [], Option.none, ⟨1⟩⟩, ⟨2⟩⟩)
      = [Inst.assign ⟨"r", RHSValue.call ⟨"p2", ["x"], [], Option.none, ⟨1⟩⟩, ⟨2⟩⟩]
    ∧ cyclePrintCalls shadowOracle
        [Inst.assign ⟨"r", RHSValue.call ⟨"p2", ["x"], [], Option.none, ⟨1⟩⟩, ⟨2⟩⟩]
      = [Inst.assign ⟨"r", RHSValue.call ⟨"p2", ["x"], [], Option.none, ⟨1⟩⟩, ⟨2⟩⟩] := by
  have h := non_builtin_callee_not_matched shadowOracle
    ⟨"r", RHSValue.call ⟨"p2", ["x"], [], Option.none, ⟨1⟩⟩, ⟨2⟩⟩
    ⟨"p2", ["x"], [], Option.none, ⟨1⟩⟩ (Const.func "print" 0)
    rfl (by decide) (by decide)
  exact ⟨h.1, h.2.1, (h.2.2 [] []).trans (by decide)⟩
